import Mathlib

/-!
Verification of the Rumah123 house-property data scraper.

The Python modules `utils.py`, `combine_links.py`, `link_scraper.py` and
`property_scraper.py` are embedded shallowly: pure text manipulation is
modelled on `List Char` / `String`, dictionaries as records or association
lists, the filesystem and HTTP boundary as explicit state values and
fetch functions, and Python `float` values as rationals (every numeric
fact checked here is exactly representable, so no rounding is involved).
-/

namespace Scraper

/-! ## Generic list/string helpers used by several modules -/

/-- `leadMatch pat l` is true when `pat` is an initial segment of `l`
(Python `str.startswith` on the underlying characters). -/
def leadMatch : List Char → List Char → Bool
  | [], _ => true
  | _ :: _, [] => false
  | a :: as, b :: bs => a == b && leadMatch as bs

/-- Python `str.endswith`: `pat` is a final segment of `l`. -/
def tailMatch (pat l : List Char) : Bool :=
  leadMatch pat.reverse l.reverse

/-- Python `pat in s` substring containment. -/
def containsSub (pat : List Char) : List Char → Bool
  | [] => leadMatch pat []
  | l@(_ :: rest) => leadMatch pat l || containsSub pat rest

/-- Python whitespace class used by `str.strip` and the regex `\s`. -/
def isSpaceCh (c : Char) : Bool :=
  c == ' ' || c == '\t' || c == '\n' || c == '\r' || c == '\x0b' || c == '\x0c'

/-- Python `str.strip()` on character lists. -/
def stripL (l : List Char) : List Char :=
  ((l.dropWhile isSpaceCh).reverse.dropWhile isSpaceCh).reverse

/-- Python `str.strip()`. -/
def stripS (s : String) : String := ⟨stripL s.data⟩

/-- Python `sep.join(parts)`. -/
def joinSep (sep : String) : List String → String
  | [] => ""
  | [x] => x
  | x :: rest => x ++ sep ++ joinSep sep rest

/-- Code-point lexicographic order on character lists: the order Python's
`sorted` and `<` use for `str` values. -/
def lexLe : List Char → List Char → Bool
  | [], _ => true
  | _ :: _, [] => false
  | a :: as, b :: bs =>
    decide (a.toNat < b.toNat) || (a.toNat == b.toNat && lexLe as bs)

/-- The lexicographic order as a relation on strings. -/
def strLeR (a b : String) : Prop := lexLe a.data b.data = true

instance : DecidableRel strLeR := fun a b => by unfold strLeR; infer_instance

instance : IsTotal String strLeR :=
  ⟨fun a b => by
    show lexLe a.data b.data = true ∨ lexLe b.data a.data = true
    generalize a.data = x
    generalize b.data = y
    induction x generalizing y with
    | nil => left; rfl
    | cons x xs ih =>
      cases y with
      | nil => right; rfl
      | cons y ys =>
        rcases Nat.lt_trichotomy x.toNat y.toNat with h | h | h
        · left; simp [lexLe, h]
        · rcases ih ys with h2 | h2
          · left; simp [lexLe, h, h2]
          · right; simp [lexLe, h.symm, h2]
        · right; simp [lexLe, h]⟩

instance : IsTrans String strLeR :=
  ⟨fun a b c => by
    show lexLe a.data b.data = true → lexLe b.data c.data = true →
      lexLe a.data c.data = true
    generalize a.data = x
    generalize b.data = y
    generalize c.data = z
    induction x generalizing y z with
    | nil => intro _ _; rfl
    | cons x xs ih =>
      intro h1 h2
      cases y with
      | nil => simp [lexLe] at h1
      | cons y ys =>
        cases z with
        | nil => simp [lexLe] at h2
        | cons z zs =>
          simp only [lexLe, Bool.or_eq_true, Bool.and_eq_true, decide_eq_true_eq,
            beq_iff_eq] at h1 h2 ⊢
          rcases h1 with h1 | ⟨h1e, h1r⟩
          · rcases h2 with h2 | ⟨h2e, h2r⟩
            · exact Or.inl (h1.trans h2)
            · exact Or.inl (h2e ▸ h1)
          · rcases h2 with h2 | ⟨h2e, h2r⟩
            · exact Or.inl (h1e ▸ h2)
            · exact Or.inr ⟨h1e.trans h2e, ih ys zs h1r h2r⟩⟩

/-- Python `sorted` on a list of strings. -/
def sortStrings (l : List String) : List String := List.insertionSort strLeR l

/-- First-seen-order deduplication, the list shadow of a Python `set`
built by repeated insertion: keeps an element only when it is not in
`seen` and not earlier in the list. -/
def dedupFrom (seen : List String) : List String → List String
  | [] => []
  | x :: xs => if x ∈ seen then dedupFrom seen xs else x :: dedupFrom (x :: seen) xs

/-- Deduplicate a list keeping first occurrences. -/
def dedupKeepFirst (l : List String) : List String := dedupFrom [] l

/-! ## Price normalization (`utils.py`, `clean_price`)

`clean_price` strips every character except digits, comma and period,
detects a scale word in the lower-cased original text, replaces the comma
with a period and parses the residue as a Python float.  The result of
`clean_price` is either Python `None` (falsy input), a number, or the
original text (parse failure). -/

/-- The residue kept by `re.sub(r'[^\d,.]', '', price_text)`. -/
def keepPriceChars (l : List Char) : List Char :=
  l.filter fun c => c.isDigit || c == ',' || c == '.'

/-- `clean.replace(',', '.')` — single-character replacement. -/
def commaToDot (l : List Char) : List Char :=
  l.map fun c => if c == ',' then '.' else c

/-- `price_text.lower()` on the character list. -/
def lowerData (t : String) : List Char := t.data.map Char.toLower

/-- The scale multiplier of `clean_price`: billion-scale words are checked
first (`"miliar"` or bare `"m"`), then million (`"juta"`), then thousand
(`"ribu"` or `"rb"`); the first hit wins, default 1. -/
def priceScale (price_text : String) : ℚ :=
  let low := lowerData price_text
  if containsSub "miliar".data low || containsSub "m".data low then 1000000000
  else if containsSub "juta".data low then 1000000
  else if containsSub "ribu".data low || containsSub "rb".data low then 1000
  else 1

/-- One of the unit words recognized by `clean_price` occurs in the text. -/
def hasUnitWord (t : String) : Bool :=
  let low := lowerData t
  containsSub "miliar".data low || containsSub "m".data low ||
    containsSub "juta".data low || containsSub "ribu".data low ||
    containsSub "rb".data low

/-- Numeric value of a digit run. -/
def digitsVal : List Char → ℕ
  | [] => 0
  | c :: cs => digitsVal cs + (c.toNat - 48) * 10 ^ cs.length

/-- Split a digits-and-dots residue the way Python `float` accepts it:
at most one dot and at least one digit; returns integer and fractional
digit runs, `none` when `float` would raise `ValueError`. -/
def parseParts (l : List Char) : Option (List Char × List Char) :=
  let ip := l.takeWhile fun c => !(c == '.')
  match l.dropWhile fun c => !(c == '.') with
  | [] => if !ip.isEmpty && ip.all Char.isDigit then some (ip, []) else Option.none
  | _ :: fp =>
    if (!ip.isEmpty || !fp.isEmpty) && ip.all Char.isDigit && fp.all Char.isDigit
    then some (ip, fp) else Option.none

/-- Value of a parsed decimal: integer part plus fractional part. -/
def ratOfParts (ip fp : List Char) : ℚ :=
  (digitsVal ip : ℚ) + (digitsVal fp : ℚ) / 10 ^ fp.length

/-- Result type of `clean_price`: Python `None`, a float, or the original
text returned on parse failure. -/
inductive PriceResult where
  | null : PriceResult
  | num : ℚ → PriceResult
  | text : String → PriceResult
deriving DecidableEq, Repr

/-- `utils.clean_price`. -/
def clean_price (price_text : String) : PriceResult :=
  if price_text.data.isEmpty then PriceResult.null
  else
    let clean := keepPriceChars price_text.data
    let multiplier := priceScale price_text
    match parseParts (commaToDot clean) with
    | some p => PriceResult.num (ratOfParts p.1 p.2 * multiplier)
    | Option.none => PriceResult.text price_text

/-! ## Session Accumulator (`combine_links.py`)

The accumulator's directory state: `combined` holds the prior increment
files (`combined_property_links_NN.txt`) as pairs of numeric suffix and
line list, `sessions` holds the per-session `property_links.txt` files as
their stripped line lists.  Writing a file is modelled by appending to
`combined`; the two-digit zero-padded rendering of the suffix is pure
formatting and is not modelled. -/

structure AccState where
  combined : List (ℕ × List String)
  sessions : List (List String)
deriving DecidableEq, Repr

/-- `combine_links.get_latest_combined_file_index`: the largest numeric
suffix among increment files, 0 when there is none. -/
def get_latest_combined_file_index (combined : List (ℕ × List String)) : ℕ :=
  combined.foldl (fun acc f => max acc f.1) 0

/-- `combine_links.read_all_combined_links`: the set of stripped lines of
every increment file. -/
def read_all_combined_links (combined : List (ℕ × List String)) : List String :=
  dedupKeepFirst (combined.map Prod.snd).flatten

/-- The `current_new_links` set built by `combine_property_links`: every
non-empty session line not present in any prior increment file. -/
def newSessionLinks (st : AccState) : List String :=
  dedupKeepFirst (st.sessions.flatten.filter fun l =>
    !(l == "") && !((read_all_combined_links st.combined).contains l))

/-- `combine_links.combine_property_links`: when new links exist, write
them sorted to a fresh increment file whose suffix is one above the
current maximum; otherwise write nothing. -/
def combine_property_links (st : AccState) : AccState :=
  let current_new_links := newSessionLinks st
  if current_new_links.isEmpty then st
  else { st with
    combined := st.combined ++
      [(get_latest_combined_file_index st.combined + 1, sortStrings current_new_links)] }

/-- A concrete accumulator state: one prior increment file and two session
link files that overlap with it and with each other. -/
def accExample : AccState :=
  { combined := [(1, ["https://x/a/"])],
    sessions := [["https://x/a/", "https://x/b/"], ["https://x/b/", "https://x/c/"]] }

/-! ## The two date/poster regexes of `property_scraper.py`

`re.search(r'Diperbarui\s+(\d+\s+\w+\s+\d+)', text)` and
`re.search(r'oleh\s+(.+)$', text)` are modelled by maximal-munch matchers
driven over every start position.  For these two patterns maximal munch
agrees with backtracking search on the stripped texts the extractor feeds
them (each quantified class is disjoint from what must follow it).  The
character classes are the ASCII fragments of Python's `\s`, `\w`, `\d`,
which cover the Indonesian month/poster text this page format uses. -/

/-- ASCII fragment of the regex class `\w`. -/
def isWordCh (c : Char) : Bool := c.isAlpha || c.isDigit || c == '_'

/-- Greedy `+` over a character class: the maximal non-empty run satisfying
`p`, with the remainder; fails on an empty run. -/
def munch1 (p : Char → Bool) (l : List Char) : Option (List Char × List Char) :=
  let tk := l.takeWhile p
  if tk.isEmpty then Option.none else some (tk, l.drop tk.length)

/-- Try `Diperbarui\s+(\d+\s+\w+\s+\d+)` at the start of `l`; returns the
captured group. -/
def dateMatchAt (l : List Char) : Option (List Char) :=
  if leadMatch "Diperbarui".data l then
    (munch1 isSpaceCh (l.drop "Diperbarui".data.length)).bind fun p1 =>
    (munch1 Char.isDigit p1.2).bind fun d1 =>
    (munch1 isSpaceCh d1.2).bind fun s1 =>
    (munch1 isWordCh s1.2).bind fun w1 =>
    (munch1 isSpaceCh w1.2).bind fun s2 =>
    (munch1 Char.isDigit s2.2).map fun d2 =>
      d1.1 ++ s1.1 ++ w1.1 ++ s2.1 ++ d2.1
  else Option.none

/-- Try `oleh\s+(.+)$` at the start of `l`; `.` excludes newlines and `$`
holds at the end of the text or just before one final trailing newline. -/
def posterMatchAt (l : List Char) : Option (List Char) :=
  if leadMatch "oleh".data l then
    (munch1 isSpaceCh (l.drop "oleh".data.length)).bind fun p1 =>
      let body := p1.2.takeWhile fun c => !(c == '\n')
      if body.isEmpty then Option.none
      else
        match p1.2.drop body.length with
        | [] => some body
        | ['\n'] => some body
        | _ => Option.none
  else Option.none

/-- `re.search`: try the matcher at each start position, left to right. -/
def searchRegex (matchAt : List Char → Option (List Char)) :
    List Char → Option (List Char)
  | [] => matchAt []
  | l@(_ :: rest) =>
    match matchAt l with
    | some g => some g
    | Option.none => searchRegex matchAt rest

/-! ## Field Extractor (`property_scraper.py`, `extract_property_details`)

A listing page is modelled by what each CSS selection of the source would
return: `Option String` for `select_one` text, lists for `select`.  The
record mirrors the `property_data` dictionary: its fixed keys are fields,
the dynamically named `spec_*` / `facility_*` / `poi_*` columns live in
`extraCols` (an insertion-ordered dictionary). -/

/-- Modelled from the spec: the machine-readable structured-data block
(name / address / offer price) read by the structured-data fallback.  The
fallback itself is part of the repository's sibling version of the
extraction module, which is not among the provided source files; a block
that fails to parse is `malformed`. -/
inductive LdBlock where
  | malformed : LdBlock
  | fields (name addr offerPrice : Option String) : LdBlock
deriving DecidableEq, Repr

/-- One listing page as the extractor sees it.  Each field holds the text
content the corresponding selection would return (`Option.none` / `[]`
when the selector matches nothing).  `specItems` lists the label/value
element pair of every specification item across the ordered selector
cascade, in cascade order; `poiSection` holds, when the POI container
exists, each category section's name-element text (the SVG icon already
removed) and item texts. -/
structure Page where
  titleElem : Option String := Option.none
  locationElem : Option String := Option.none
  priceElem : Option String := Option.none
  originalPriceElem : Option String := Option.none
  savingsElem : Option String := Option.none
  roundedFullTexts : List String := []
  dateByElem : Option String := Option.none
  installmentTexts : List String := []
  specItems : List (Option String × Option String) := []
  descriptionElems : List (Option String) := []
  facilityCategories : List (String × List String) := []
  genericFacilityItems : List String := []
  poiSection : Option (List (Option String × List String)) := Option.none
  structuredBlock : Option LdBlock := Option.none
deriving DecidableEq, Repr

/-- A dynamically named column's value: text for `spec_*`/`poi_*_text`
columns, a boolean for presence columns. -/
inductive CellVal where
  | s : String → CellVal
  | b : Bool → CellVal
deriving DecidableEq, Repr

/-- Python-dict insertion/overwrite for dynamic columns. -/
def upsert (k : String) (v : CellVal) :
    List (String × CellVal) → List (String × CellVal)
  | [] => [(k, v)]
  | (k2, v2) :: rest => if k2 == k then (k2, v) :: rest else (k2, v2) :: upsert k v rest

/-- Python-dict insertion/overwrite for the specification dictionary. -/
def upsertS (k v : String) : List (String × String) → List (String × String)
  | [] => [(k, v)]
  | (k2, v2) :: rest => if k2 == k then (k2, v) :: rest else (k2, v2) :: upsertS k v rest

/-- Python-dict insertion/overwrite for the POI category dictionary. -/
def upsertL (k : String) (v : List String) :
    List (String × List String) → List (String × List String)
  | [] => [(k, v)]
  | (k2, v2) :: rest => if k2 == k then (k2, v) :: rest else (k2, v2) :: upsertL k v rest

/-- Remove every occurrence of `pat` (Python `str.replace(pat, "")`),
driven by a fuel argument bounded by the list length. -/
def removeSubAux (pat : List Char) : ℕ → List Char → List Char
  | _, [] => []
  | 0, l => l
  | fuel + 1, l@(c :: rest) =>
    if !pat.isEmpty && leadMatch pat l then removeSubAux pat fuel (l.drop pat.length)
    else c :: removeSubAux pat fuel rest

/-- Python `s.replace(pat, "")`. -/
def removeSub (pat l : List Char) : List Char := removeSubAux pat l.length l

/-- `spec_` column name: spaces to underscores; colon, comma, semicolon
dropped (the label is already lower-cased). -/
def specColKey (k : String) : String :=
  "spec_" ++ ⟨k.data.filterMap fun c =>
    if c == ':' || c == ',' || c == ';' then Option.none
    else if c == ' ' then some '_' else some c⟩

/-- Shared slug: lower-case, space/dash to underscore, period and comma
dropped. -/
def slugLower (s : String) : String :=
  ⟨(s.data.map Char.toLower).filterMap fun c =>
    if c == '.' || c == ',' then Option.none
    else if c == ' ' || c == '-' then some '_' else some c⟩

/-- `facility_` presence column name. -/
def facilityColKey (f : String) : String := "facility_" ++ slugLower f

/-- `poi_<category>_text` column name. -/
def poiTextKey (cat : String) : String := "poi_" ++ slugLower cat ++ "_text"

/-- Per-POI presence column name: the category part is only lower-cased,
the item part is slugged. -/
def poiItemKey (cat poi : String) : String :=
  "poi_" ++ ⟨cat.data.map Char.toLower⟩ ++ "_" ++ slugLower poi

/-- The closed set of property-type badge labels. -/
def propertyTypeNames : List String := ["Rumah", "Apartemen", "Tanah", "Ruko", "Kost"]

/-- The three fixed facility category headings. -/
def facilityCatNames : List String :=
  ["Fasilitas Rumah", "Fasilitas Perumahan", "Perabotan"]

/-- Fold the specification items into the `all_specs` dictionary: both
elements present, label stripped and lower-cased, pairs with a short label
or empty value skipped, colon removed from the label, later items
overwriting earlier ones with the same cleaned label. -/
def collectSpecs (items : List (Option String × Option String)) :
    List (String × String) :=
  items.foldl (fun acc item =>
    match item.1, item.2 with
    | some le, some ve =>
      let label : String := ⟨(stripL le.data).map Char.toLower⟩
      let value := stripS ve
      if label.data.length < 2 || value.data.length < 1 then acc
      else
        let clean_label := stripS ⟨label.data.filter fun c => !(c == ':')⟩
        upsertS clean_label value acc
    | _, _ => acc) []

/-- First description candidate whose stripped text is non-empty. -/
def firstNonEmpty : List (Option String) → Option String
  | [] => Option.none
  | Option.none :: rest => firstNonEmpty rest
  | some t :: rest =>
    if (stripS t).data.isEmpty then firstNonEmpty rest else some (stripS t)

/-- The scraped record: the fixed keys of the `property_data` dictionary
as fields, dynamic columns in `extraCols`. -/
structure PropertyRecord where
  url : String
  title : Option String := Option.none
  location : Option String := Option.none
  price : Option String := Option.none
  price_numeric : Option PriceResult := Option.none
  original_price : Option String := Option.none
  original_price_numeric : Option PriceResult := Option.none
  savings : Option String := Option.none
  property_type : Option String := Option.none
  updated_date : Option String := Option.none
  posted_by : Option String := Option.none
  description : Option String := Option.none
  installment_info : Option String := Option.none
  specifications_text : String := ""
  facilities_text : String := ""
  poi_text : String := ""
  fasilitas_rumah_text : String := ""
  fasilitas_perumahan_text : String := ""
  perabotan_text : String := ""
  poi_structured_text : Option String := Option.none
  extraCols : List (String × CellVal) := []
deriving DecidableEq, Repr

/-- The markup-driven part of `extract_property_details`, given an already
fetched and parsed page.  (The source's global `ALL_SPEC_FIELDS` registry
feeds only the separate reporting CSV and is not part of the record.) -/
def extractFromPage (url : String) (split_details : Bool) (p : Page) :
    PropertyRecord :=
  let all_specs := collectSpecs p.specItems
  let specCols : List (String × CellVal) :=
    if split_details then
      all_specs.foldl (fun acc kv => upsert (specColKey kv.1) (CellVal.s kv.2) acc) []
    else []
  let catFacilities := facilityCatNames.map fun cat =>
    (cat, match p.facilityCategories.lookup cat with
      | some items => items.filterMap fun t =>
          if (stripS t).data.isEmpty then Option.none else some (stripS t)
      | Option.none => [])
  let all_facilities := (catFacilities.map Prod.snd).flatten
  let facilityCols :=
    if split_details then
      all_facilities.foldl (fun acc f => upsert (facilityColKey f) (CellVal.b true) acc)
        specCols
    else specCols
  let generic_facilities := p.genericFacilityItems.filterMap fun t =>
    if (stripS t).data.isEmpty then Option.none else some (stripS t)
  let fallbackCols :=
    if all_facilities.isEmpty then
      generic_facilities.foldl (fun acc f => upsert (facilityColKey f) (CellVal.b true) acc)
        facilityCols
    else facilityCols
  let poiData :=
    match p.poiSection with
    | Option.none => (([] : List (String × List String)), ([] : List String), fallbackCols)
    | some sections =>
      sections.foldl (fun (acc : List (String × List String) × List String ×
          List (String × CellVal)) (sec : Option String × List String) =>
        match sec.1 with
        | Option.none => acc
        | some nameEl =>
          let category_name := stripS nameEl
          let category_pois := sec.2.filterMap fun t =>
            if (stripS t).data.isEmpty then Option.none else some (stripS t)
          if category_pois.isEmpty then acc
          else
            let cols := upsert (poiTextKey category_name)
              (CellVal.s (joinSep ", " category_pois)) acc.2.2
            let cols := if split_details then
                category_pois.foldl
                  (fun c poi => upsert (poiItemKey category_name poi) (CellVal.b true) c)
                  cols
              else cols
            (upsertL category_name category_pois acc.1, acc.2.1 ++ category_pois, cols))
        ([], [], fallbackCols)
  let all_poi_categories := poiData.1
  let all_pois := poiData.2.1
  let catText := fun cat =>
    match catFacilities.lookup cat with
    | some names => if names.isEmpty then "" else joinSep ", " names
    | Option.none => ""
  { url := url
    title := p.titleElem.map stripS
    location := p.locationElem.map stripS
    price := p.priceElem.map stripS
    price_numeric := p.priceElem.map fun t => clean_price (stripS t)
    original_price := p.originalPriceElem.map stripS
    original_price_numeric := p.originalPriceElem.map fun t => clean_price (stripS t)
    savings :=
      match p.savingsElem with
      | some t =>
        let savings_text := stripS t
        if containsSub "HEMAT".data savings_text.data
        then some (stripS ⟨removeSub "HEMAT".data savings_text.data⟩)
        else Option.none
      | Option.none => Option.none
    property_type :=
      (p.roundedFullTexts.map stripS).find? fun t => propertyTypeNames.contains t
    updated_date :=
      match p.dateByElem with
      | some t => (searchRegex dateMatchAt (stripL t.data)).map fun g => (⟨g⟩ : String)
      | Option.none => Option.none
    posted_by :=
      match p.dateByElem with
      | some t => (searchRegex posterMatchAt (stripL t.data)).map fun g => stripS ⟨g⟩
      | Option.none => Option.none
    description := firstNonEmpty p.descriptionElems
    installment_info :=
      (p.installmentTexts.find? fun t => containsSub "Cicilan".data t.data).map stripS
    specifications_text :=
      if all_specs.isEmpty then ""
      else joinSep "; " (all_specs.map fun kv => kv.1 ++ ": " ++ kv.2)
    facilities_text :=
      if !all_facilities.isEmpty then joinSep ", " all_facilities
      else if !p.genericFacilityItems.isEmpty then joinSep ", " generic_facilities
      else ""
    poi_text := if all_pois.isEmpty then "" else joinSep ", " all_pois
    fasilitas_rumah_text := catText "Fasilitas Rumah"
    fasilitas_perumahan_text := catText "Fasilitas Perumahan"
    perabotan_text := catText "Perabotan"
    poi_structured_text :=
      if all_poi_categories.isEmpty then Option.none
      else some (joinSep "; " (all_poi_categories.map
        fun (kv : String × List String) => kv.1 ++ ": " ++ joinSep ", " kv.2))
    extraCols := poiData.2.2 }

/-- An error record: the URL plus the error description. -/
structure ErrorRecord where
  url : String
  error : String
deriving DecidableEq, Repr

/-- Result of processing one listing URL: a populated record or an error
record. -/
inductive ExtractionResult where
  | ok : PropertyRecord → ExtractionResult
  | fail : ErrorRecord → ExtractionResult
deriving DecidableEq, Repr

/-- The URL retained by either kind of result. -/
def ExtractionResult.urlOf : ExtractionResult → String
  | ExtractionResult.ok r => r.url
  | ExtractionResult.fail e => e.url

/-- `property_scraper.extract_property_details`: the whole-page try/except.
`fetch` stands for the request/parse boundary: `Except.error` is any
exception escaping the body, caught by the outer handler which degrades to
an error record retaining the URL. -/
def extract_property_details (fetch : String → Except String Page)
    (url : String) (split_details : Bool) : ExtractionResult :=
  match fetch url with
  | Except.error e => ExtractionResult.fail { url := url, error := e }
  | Except.ok page => ExtractionResult.ok (extractFromPage url split_details page)

/-- Modelled from the spec: the structured-data fallback of the sibling
extraction module (absent from the provided sources) — fill `title`,
`location`, `price` from the block's name/address/offer price only when
the markup pass left them null; never overwrite; a missing or malformed
block changes nothing. -/
def applyStructuredFallback (blk : Option LdBlock) (r : PropertyRecord) :
    PropertyRecord :=
  match blk with
  | Option.none => r
  | some LdBlock.malformed => r
  | some (LdBlock.fields nm addr pr) =>
    { r with
      title := r.title.or nm
      location := r.location.or addr
      price := r.price.or pr }

/-- Modelled from the spec: markup extraction followed by the
structured-data fallback. -/
def extract_with_structured_fallback (url : String) (split_details : Bool)
    (p : Page) : PropertyRecord :=
  applyStructuredFallback p.structuredBlock (extractFromPage url split_details p)

/-- `property_scraper.scrape_all_properties` loop body: skip links already
in `scraped_urls`, otherwise extract (with `split_details=False`) and
record the link as seen — `extract_property_details` always returns a
non-empty dictionary, so the source's truthiness guard always passes. -/
def scrapeFrom (fetch : String → Except String Page) (seen : List String) :
    List String → List ExtractionResult
  | [] => []
  | link :: rest =>
    if link ∈ seen then scrapeFrom fetch seen rest
    else extract_property_details fetch link false :: scrapeFrom fetch (link :: seen) rest

/-- `property_scraper.scrape_all_properties` (interim CSV flushes and
delays are I/O only and not modelled). -/
def scrape_all_properties (fetch : String → Except String Page)
    (links : List String) : List ExtractionResult :=
  scrapeFrom fetch [] links

/-! ## Link Harvester (`link_scraper.py`) -/

/-- `link_scraper.extract_links_from_page`: fetch an index page — modelled
as the list of anchor `href` values — keep each href that starts with
`/properti/` and ends with `/`, resolve it against the base URL, and
return the set of resolved links; any failure yields the empty list. -/
def extract_links_from_page (fetchAnchors : String → Except String (List String))
    (url : String) (base_url : String) : List String :=
  match fetchAnchors url with
  | Except.error _ => []
  | Except.ok hrefs =>
    dedupKeepFirst ((hrefs.filter fun h =>
      leadMatch "/properti/".data h.data && tailMatch "/".data h.data).map
        fun h => base_url ++ h)

/-! ## Record Sink column ordering (`utils.py`, `save_to_csv`) -/

/-- The column ordering computed by `save_to_csv`, as a function of the
records' key lists: union all keys, drop the internal tracking key
`all_specifications`, sort lexicographically, and move `error` to the end
when present. -/
def ordered_fields (data : List (List String)) : List String :=
  let all_fields := dedupKeepFirst data.flatten
  let remaining := all_fields.filter fun k => !(k == "all_specifications")
  let sortedFields := sortStrings remaining
  if sortedFields.contains "error"
  then (sortedFields.filter fun k => !(k == "error")) ++ ["error"]
  else sortedFields

/-! ## Concrete pages used by witnesses and counterexamples -/

/-- A page whose date/poster element says only `oleh Budi`. -/
def pageDateOnly : Page := { dateByElem := some "oleh Budi" }

/-- A page with a full `Diperbarui ... oleh ...` date/poster element. -/
def pageDateFull : Page :=
  { dateByElem := some "Diperbarui 12 Mei 2024 oleh Anisa Putri" }

/-- A page where markup finds a title but no location, and a structured
block offers both a name and an address. -/
def pageStructured : Page :=
  { titleElem := some "Rumah Mewah 2 Lantai",
    structuredBlock := some (LdBlock.fields (some "SD Name") (some "SD Addr")
      (some "Rp 1 Miliar")) }

end Scraper

namespace Scraper

/-! ## General lemmas about the helpers -/

theorem sortStrings_perm (l : List String) : List.Perm (sortStrings l) l :=
  List.perm_insertionSort strLeR l

theorem mem_sortStrings {l : List String} {x : String} :
    x ∈ sortStrings l ↔ x ∈ l :=
  (sortStrings_perm l).mem_iff

theorem sortStrings_sorted (l : List String) : List.Sorted strLeR (sortStrings l) :=
  List.sorted_insertionSort strLeR l

theorem sortStrings_nodup {l : List String} (h : l.Nodup) : (sortStrings l).Nodup :=
  (sortStrings_perm l).nodup_iff.mpr h

theorem mem_dedupFrom {seen : List String} {l : List String} {a : String} :
    a ∈ dedupFrom seen l ↔ a ∈ l ∧ a ∉ seen := by
  induction l generalizing seen with
  | nil => simp [dedupFrom]
  | cons x xs ih =>
    by_cases hx : x ∈ seen
    · simp only [dedupFrom, if_pos hx, ih, List.mem_cons]
      constructor
      · rintro ⟨h1, h2⟩; exact ⟨Or.inr h1, h2⟩
      · rintro ⟨h1 | h1, h2⟩
        · exact absurd (h1 ▸ hx) h2
        · exact ⟨h1, h2⟩
    · simp only [dedupFrom, if_neg hx, List.mem_cons, ih]
      constructor
      · rintro (rfl | ⟨h1, h2⟩)
        · exact ⟨Or.inl rfl, hx⟩
        · simp only [List.mem_cons, not_or] at h2
          exact ⟨Or.inr h1, h2.2⟩
      · rintro ⟨rfl | h1, h2⟩
        · exact Or.inl rfl
        · by_cases hax : a = x
          · exact Or.inl hax
          · exact Or.inr ⟨h1, by simp [hax, h2]⟩

theorem mem_dedupKeepFirst {l : List String} {a : String} :
    a ∈ dedupKeepFirst l ↔ a ∈ l := by
  simp [dedupKeepFirst, mem_dedupFrom]

theorem dedupFrom_nodup (seen : List String) (l : List String) :
    (dedupFrom seen l).Nodup := by
  induction l generalizing seen with
  | nil => simp [dedupFrom]
  | cons x xs ih =>
    by_cases hx : x ∈ seen
    · simpa [dedupFrom, hx] using ih seen
    · simp only [dedupFrom, if_neg hx, List.nodup_cons]
      refine ⟨fun hmem => ?_, ih (x :: seen)⟩
      exact (mem_dedupFrom.mp hmem).2 (List.mem_cons_self x seen)

theorem dedupKeepFirst_nodup (l : List String) : (dedupKeepFirst l).Nodup :=
  dedupFrom_nodup [] l

/-! ## Lemmas about the Session Accumulator -/

theorem mem_read_all_combined_links {combined : List (ℕ × List String)}
    {l : String} :
    l ∈ read_all_combined_links combined ↔ l ∈ (combined.map Prod.snd).flatten := by
  simp [read_all_combined_links, mem_dedupKeepFirst]

theorem mem_newSessionLinks {st : AccState} {l : String} :
    l ∈ newSessionLinks st ↔
      l ≠ "" ∧ l ∈ st.sessions.flatten ∧ l ∉ (st.combined.map Prod.snd).flatten := by
  simp [newSessionLinks, mem_dedupKeepFirst, List.mem_filter,
    mem_read_all_combined_links]
  tauto

theorem combine_keeps_sessions (st : AccState) :
    (combine_property_links st).sessions = st.sessions := by
  simp only [combine_property_links]
  split <;> rfl

theorem combine_eq_self (st : AccState) (h : newSessionLinks st = []) :
    combine_property_links st = st := by
  simp [combine_property_links, h]

theorem combine_combined_eq (st : AccState) (h : newSessionLinks st ≠ []) :
    (combine_property_links st).combined = st.combined ++
      [(get_latest_combined_file_index st.combined + 1,
        sortStrings (newSessionLinks st))] := by
  have hb : (newSessionLinks st).isEmpty = false := by
    cases hc : newSessionLinks st with
    | nil => exact absurd hc h
    | cons a as => rfl
  simp [combine_property_links, hb]

theorem newSessionLinks_after (st : AccState) :
    newSessionLinks (combine_property_links st) = [] := by
  by_cases h : newSessionLinks st = []
  · rw [combine_eq_self st h]; exact h
  · rw [List.eq_nil_iff_forall_not_mem]
    intro l hl
    rw [mem_newSessionLinks, combine_keeps_sessions, combine_combined_eq st h] at hl
    obtain ⟨hne, hsess, hnot⟩ := hl
    simp only [List.map_append, List.flatten_append, List.mem_append] at hnot
    push_neg at hnot
    obtain ⟨hnotPrev, hnotNew⟩ := hnot
    have : l ∈ newSessionLinks st :=
      mem_newSessionLinks.mpr ⟨hne, hsess, hnotPrev⟩
    apply hnotNew
    simp [List.flatten, mem_sortStrings, this]

/-! ## Claim theorems for the price normalizer and the accumulator -/

/-- C1: for every price text containing a recognized billion/million/thousand
unit word whose digits/comma/period residue parses as a decimal, `clean_price`
returns that decimal value multiplied by the scale detected by scanning the
lower-cased original text for unit words in priority order billion
(`miliar`/`m`), then million (`juta`), then thousand (`ribu`/`rb`), first
match winning (`priceScale`). -/
theorem clean_price_unit_scaled (t : String) (ip fp : List Char)
    (_hu : hasUnitWord t = true)
    (hp : parseParts (commaToDot (keepPriceChars t.data)) = some (ip, fp)) :
    clean_price t = PriceResult.num (ratOfParts ip fp * priceScale t) := by
  have hne : t.data.isEmpty = false := by
    cases hd : t.data with
    | nil => rw [hd] at hp; simp [keepPriceChars, commaToDot, parseParts] at hp
    | cons c cs => rfl
  simp only [clean_price, hne, Bool.false_eq_true, if_false, hp]

/-- C1 witness: `"Rp 1,5 Miliar"` contains the billion-scale unit word, its
residue parses as `1.5`, and `clean_price` yields `1500000000`. -/
theorem clean_price_unit_scaled_witness :
    clean_price "Rp 1,5 Miliar" = PriceResult.num 1500000000 := by
  have h := clean_price_unit_scaled "Rp 1,5 Miliar" ['1'] ['5'] (by decide) (by decide)
  rw [h, show priceScale "Rp 1,5 Miliar" = 1000000000 from by decide]
  have h1 : '1'.toNat - 48 = 1 := by decide
  have h5 : '5'.toNat - 48 = 5 := by decide
  norm_num [ratOfParts, digitsVal, h1, h5]

/-- C4 counterexample: the empty price text has an unparseable residue, yet
`clean_price` returns Python `None` (the falsy-input branch of the source),
not the original text, so the fallback-to-original-text claim fails on the
empty string. -/
theorem clean_price_fallback_counterexample :
    parseParts (commaToDot (keepPriceChars ("".data))) = Option.none ∧
    clean_price "" = PriceResult.null ∧ PriceResult.null ≠ PriceResult.text "" :=
  ⟨by decide, by decide, by decide⟩

/-- C4 (amended): for every NON-EMPTY price text whose digits/comma/period
residue does not parse as a decimal, `clean_price` returns the original text
unchanged — a string, not null, and no failure. -/
theorem clean_price_text_fallback (t : String) (hne : t.data ≠ [])
    (hp : parseParts (commaToDot (keepPriceChars t.data)) = Option.none) :
    clean_price t = PriceResult.text t := by
  have h : t.data.isEmpty = false := by
    cases hd : t.data with
    | nil => exact absurd hd hne
    | cons c cs => rfl
  simp only [clean_price, h, Bool.false_eq_true, if_false, hp]

/-- C4 witness: `"Rp 1.234.567"` is non-empty, its residue `1.234.567` has two
periods and does not parse, and `clean_price` returns the text unchanged. -/
theorem clean_price_text_fallback_witness :
    clean_price "Rp 1.234.567" = PriceResult.text "Rp 1.234.567" :=
  clean_price_text_fallback "Rp 1.234.567" (by decide) (by decide)

/-- C2: starting from a state with at least one prior increment file, a run
of the Session Accumulator (a) writes nothing when every session link was
already recorded; (b) otherwise appends exactly one increment file whose
numeric suffix is one above the previous maximum and whose content is the
sorted new-link set; and that content (c) holds a link iff it is a non-empty
session line absent from every prior increment file, (d) has no duplicate
lines, and (e) is sorted lexicographically. -/
theorem combine_property_links_spec (st : AccState)
    (_hprior : st.combined ≠ []) :
    (newSessionLinks st = [] → combine_property_links st = st) ∧
    (newSessionLinks st ≠ [] →
      (combine_property_links st).combined = st.combined ++
        [(get_latest_combined_file_index st.combined + 1,
          sortStrings (newSessionLinks st))]) ∧
    (∀ l, l ∈ sortStrings (newSessionLinks st) ↔
      (l ≠ "" ∧ l ∈ st.sessions.flatten ∧ l ∉ (st.combined.map Prod.snd).flatten)) ∧
    (sortStrings (newSessionLinks st)).Nodup ∧
    List.Sorted strLeR (sortStrings (newSessionLinks st)) := by
  refine ⟨combine_eq_self st, combine_combined_eq st, ?_, ?_, sortStrings_sorted _⟩
  · intro l
    rw [mem_sortStrings, mem_newSessionLinks]
  · exact sortStrings_nodup (dedupKeepFirst_nodup _)

/-- C2 witness: with one prior increment file `["https://x/a/"]` (suffix 1)
and two overlapping sessions, the run appends the file with suffix 2 holding
exactly the sorted new links `["https://x/b/", "https://x/c/"]`. -/
theorem combine_property_links_spec_witness :
    (combine_property_links accExample).combined =
      [(1, ["https://x/a/"]), (2, ["https://x/b/", "https://x/c/"])] := by
  have h := (combine_property_links_spec accExample (by decide)).2.1 (by decide)
  rw [h]
  decide

/-- Both branches of `extract_property_details` keep the input URL. -/
theorem extract_keeps_url (fetch : String → Except String Page)
    (url : String) (sd : Bool) :
    ExtractionResult.urlOf (extract_property_details fetch url sd) = url := by
  cases hf : fetch url <;>
    simp [extract_property_details, hf, ExtractionResult.urlOf, extractFromPage]

/-- The processed URLs of the scraping loop are the pending links
deduplicated against the seen set. -/
theorem scrapeFrom_urls (fetch : String → Except String Page)
    (seen links : List String) :
    (scrapeFrom fetch seen links).map ExtractionResult.urlOf =
      dedupFrom seen links := by
  induction links generalizing seen with
  | nil => rfl
  | cons link rest ih =>
    by_cases h : link ∈ seen
    · simp [scrapeFrom, dedupFrom, h, ih]
    · simp [scrapeFrom, dedupFrom, h, ih, extract_keeps_url]

/-- C3: the Session Accumulator is idempotent — a second run against the
unchanged state writes no new increment file; the set of links recorded
across increment files only grows; and the newly written file never repeats
a link already present in some prior increment file. -/
theorem combine_property_links_idempotent (st : AccState) :
    combine_property_links (combine_property_links st) = combine_property_links st ∧
    (∀ l, l ∈ (st.combined.map Prod.snd).flatten →
      l ∈ ((combine_property_links st).combined.map Prod.snd).flatten) ∧
    (∀ l, l ∈ sortStrings (newSessionLinks st) →
      l ∉ (st.combined.map Prod.snd).flatten) := by
  refine ⟨combine_eq_self _ (newSessionLinks_after st), ?_, ?_⟩
  · intro l hl
    by_cases h : newSessionLinks st = []
    · rw [combine_eq_self st h]; exact hl
    · rw [combine_combined_eq st h]
      simp only [List.map_append, List.flatten_append, List.mem_append]
      exact Or.inl hl
  · intro l hl
    rw [mem_sortStrings, mem_newSessionLinks] at hl
    exact hl.2.2

end Scraper

namespace Scraper

/-- C5: the Link Harvester returns a link iff some anchor href on the
fetched index page starts with the listings path prefix `/properti/`, ends
with the path separator `/`, and resolves against the base origin to that
link; and the two-anchor example page (`/properti/abc/`, `/other/xyz`)
yields exactly the singleton `base_url ++ "/properti/abc/"`. -/
theorem extract_links_from_page_spec
    (fetchAnchors : String → Except String (List String))
    (url base_url link : String) (hrefs : List String)
    (hfetch : fetchAnchors url = Except.ok hrefs) :
    (link ∈ extract_links_from_page fetchAnchors url base_url ↔
      ∃ h, h ∈ hrefs ∧ leadMatch "/properti/".data h.data = true ∧
        tailMatch "/".data h.data = true ∧ link = base_url ++ h) ∧
    extract_links_from_page (fun _ => Except.ok ["/properti/abc/", "/other/xyz"])
      url base_url = [base_url ++ "/properti/abc/"] := by
  constructor
  · simp only [extract_links_from_page, hfetch, mem_dedupKeepFirst, List.mem_map,
      List.mem_filter, Bool.and_eq_true]
    constructor
    · rintro ⟨h, ⟨hh, hp, ht⟩, rfl⟩
      exact ⟨h, hh, hp, ht, rfl⟩
    · rintro ⟨h, hh, hp, ht, rfl⟩
      exact ⟨h, ⟨hh, hp, ht⟩, rfl⟩
  · have hfil : (["/properti/abc/", "/other/xyz"].filter fun h =>
        leadMatch "/properti/".data h.data && tailMatch "/".data h.data) =
        ["/properti/abc/"] := by decide
    simp [extract_links_from_page, hfil, dedupKeepFirst, dedupFrom]

/-- C5 witness: the example instantiated at the real origin. -/
theorem extract_links_from_page_spec_witness :
    extract_links_from_page (fun _ => Except.ok ["/properti/abc/", "/other/xyz"])
      "https://www.rumah123.com/jual/" "https://www.rumah123.com" =
      ["https://www.rumah123.com/properti/abc/"] := by
  have h := (extract_links_from_page_spec
    (fun _ => Except.ok ["/properti/abc/", "/other/xyz"])
    "https://www.rumah123.com/jual/" "https://www.rumah123.com"
    "https://www.rumah123.com/properti/abc/" ["/properti/abc/", "/other/xyz"] rfl).2
  rw [h]
  decide

/-- C6: `extract_property_details` never raises outward — every result
retains the URL; a fetch/parse failure yields exactly the error record
`{url, error}`; a successful fetch always yields an `ok` record whose `url`
is the input URL, and field-level misses (missing title/price elements,
no description candidate) leave the corresponding fields null without
degrading the record to an error record. -/
theorem extract_property_details_total (fetch : String → Except String Page)
    (url : String) (sd : Bool) :
    (ExtractionResult.urlOf (extract_property_details fetch url sd) = url) ∧
    (∀ e, fetch url = Except.error e →
      extract_property_details fetch url sd =
        ExtractionResult.fail { url := url, error := e }) ∧
    (∀ page, fetch url = Except.ok page →
      extract_property_details fetch url sd =
        ExtractionResult.ok (extractFromPage url sd page)) ∧
    (∀ page : Page, (extractFromPage url sd page).url = url) ∧
    (∀ page : Page, page.titleElem = Option.none →
      (extractFromPage url sd page).title = Option.none) ∧
    (∀ page : Page, page.priceElem = Option.none →
      (extractFromPage url sd page).price = Option.none ∧
        (extractFromPage url sd page).price_numeric = Option.none) ∧
    (∀ page : Page, page.descriptionElems = [] →
      (extractFromPage url sd page).description = Option.none) := by
  refine ⟨extract_keeps_url fetch url sd, ?_, ?_, ?_, ?_, ?_, ?_⟩
  · intro e he; simp [extract_property_details, he]
  · intro page hp; simp [extract_property_details, hp]
  · intro page; simp [extractFromPage]
  · intro page h; simp [extractFromPage, h]
  · intro page h; constructor <;> simp [extractFromPage, h]
  · intro page h; simp [extractFromPage, h, firstNonEmpty]

/-- C6 witness: a fetch that fails with `"timeout"` yields the error record
retaining the URL. -/
theorem extract_property_details_total_witness :
    extract_property_details (fun _ => Except.error "timeout")
      "https://x/p/" false =
      ExtractionResult.fail { url := "https://x/p/", error := "timeout" } :=
  (extract_property_details_total (fun _ => Except.error "timeout")
    "https://x/p/" false).2.1 "timeout" rfl

/-- C7 (spec-modelled): the structured-data fallback fills `title`,
`location`, `price` from the block's name/address/offer price only when the
markup pass left them null; it never overwrites a markup value, leaves all
other fields untouched, and a missing or malformed block changes nothing. -/
theorem structured_fallback_fill_only_null (url : String) (sd : Bool) (p : Page) :
    (p.structuredBlock = Option.none →
      extract_with_structured_fallback url sd p = extractFromPage url sd p) ∧
    (p.structuredBlock = some LdBlock.malformed →
      extract_with_structured_fallback url sd p = extractFromPage url sd p) ∧
    (∀ nm addr pr, p.structuredBlock = some (LdBlock.fields nm addr pr) →
      (∀ v, (extractFromPage url sd p).title = some v →
        (extract_with_structured_fallback url sd p).title = some v) ∧
      ((extractFromPage url sd p).title = Option.none →
        (extract_with_structured_fallback url sd p).title = nm) ∧
      (∀ v, (extractFromPage url sd p).location = some v →
        (extract_with_structured_fallback url sd p).location = some v) ∧
      ((extractFromPage url sd p).location = Option.none →
        (extract_with_structured_fallback url sd p).location = addr) ∧
      (∀ v, (extractFromPage url sd p).price = some v →
        (extract_with_structured_fallback url sd p).price = some v) ∧
      ((extractFromPage url sd p).price = Option.none →
        (extract_with_structured_fallback url sd p).price = pr) ∧
      (extract_with_structured_fallback url sd p).url =
        (extractFromPage url sd p).url ∧
      (extract_with_structured_fallback url sd p).price_numeric =
        (extractFromPage url sd p).price_numeric ∧
      (extract_with_structured_fallback url sd p).savings =
        (extractFromPage url sd p).savings ∧
      (extract_with_structured_fallback url sd p).property_type =
        (extractFromPage url sd p).property_type ∧
      (extract_with_structured_fallback url sd p).updated_date =
        (extractFromPage url sd p).updated_date ∧
      (extract_with_structured_fallback url sd p).posted_by =
        (extractFromPage url sd p).posted_by ∧
      (extract_with_structured_fallback url sd p).description =
        (extractFromPage url sd p).description ∧
      (extract_with_structured_fallback url sd p).specifications_text =
        (extractFromPage url sd p).specifications_text ∧
      (extract_with_structured_fallback url sd p).extraCols =
        (extractFromPage url sd p).extraCols) := by
  refine ⟨?_, ?_, ?_⟩
  · intro hb; simp [extract_with_structured_fallback, applyStructuredFallback, hb]
  · intro hb; simp [extract_with_structured_fallback, applyStructuredFallback, hb]
  · intro nm addr pr hb
    refine ⟨?_, ?_, ?_, ?_, ?_, ?_, ?_, ?_, ?_, ?_, ?_, ?_, ?_, ?_, ?_⟩ <;>
      first
        | (intro v hv
           simp [extract_with_structured_fallback, applyStructuredFallback, hb, hv])
        | (intro hv
           simp [extract_with_structured_fallback, applyStructuredFallback, hb, hv])
        | simp [extract_with_structured_fallback, applyStructuredFallback, hb]

/-- C7 witness: on `pageStructured` the markup-found title survives the
fallback and the null location is filled with the block's address. -/
theorem structured_fallback_fill_only_null_witness :
    (extract_with_structured_fallback "https://x/p/" false pageStructured).title =
      some "Rumah Mewah 2 Lantai" ∧
    (extract_with_structured_fallback "https://x/p/" false pageStructured).location =
      some "SD Addr" := by
  have h := (structured_fallback_fill_only_null "https://x/p/" false pageStructured).2.2
    (some "SD Name") (some "SD Addr") (some "Rp 1 Miliar") rfl
  exact ⟨h.1 "Rumah Mewah 2 Lantai" (by decide), h.2.2.2.1 (by decide)⟩

/-- C9 counterexample: on a date/poster element reading `oleh Budi` the
date pattern has no match yet `posted_by` is set to `Budi` — refuting the
claim that both fields stay null whenever the combined
"Updated date ... by name" pattern does not match. -/
theorem date_poster_counterexample :
    (extractFromPage "https://x/p/" false pageDateOnly).updated_date = Option.none ∧
    (extractFromPage "https://x/p/" false pageDateOnly).posted_by = some "Budi" :=
  ⟨by decide, by decide⟩

/-- C9 (amended): the date/poster text is parsed by two INDEPENDENT regex
searches on the same stripped element text — `Diperbarui\s+(\d+\s+\w+\s+\d+)`
sets `updated_date` from its group and `oleh\s+(.+)$` sets `posted_by` from
its stripped group — each field set exactly when its own pattern matches
(so one can be set without the other); when the element is absent both
stay null. -/
theorem date_poster_fields (url : String) (sd : Bool) (p : Page) :
    (∀ t, p.dateByElem = some t →
      (extractFromPage url sd p).updated_date =
        (searchRegex dateMatchAt (stripL t.data)).map (fun g => (⟨g⟩ : String)) ∧
      (extractFromPage url sd p).posted_by =
        (searchRegex posterMatchAt (stripL t.data)).map (fun g => stripS ⟨g⟩)) ∧
    (p.dateByElem = Option.none →
      (extractFromPage url sd p).updated_date = Option.none ∧
      (extractFromPage url sd p).posted_by = Option.none) := by
  constructor
  · intro t ht; constructor <;> simp [extractFromPage, ht]
  · intro ht; constructor <;> simp [extractFromPage, ht]

/-- C9 witness: on the full `Diperbarui 12 Mei 2024 oleh Anisa Putri`
element both patterns match and both fields are set from their groups. -/
theorem date_poster_fields_witness :
    (extractFromPage "https://x/p/" false pageDateFull).updated_date =
      some "12 Mei 2024" ∧
    (extractFromPage "https://x/p/" false pageDateFull).posted_by =
      some "Anisa Putri" := by
  have h := (date_poster_fields "https://x/p/" false pageDateFull).1
    "Diperbarui 12 Mei 2024 oleh Anisa Putri" rfl
  rw [h.1, h.2]
  exact ⟨by decide, by decide⟩

/-- C8 counterexample: for a record with keys `url`, `title`,
`specifications_text`, `spec_a` the exported header is the plain
lexicographic sort, so the dynamic `spec_a` column comes FIRST and the
core columns do not open the header in a stable core order — refuting the
claimed core/consolidated/dynamic/ad-hoc layering. -/
theorem ordered_fields_counterexample :
    ordered_fields [["url", "title", "specifications_text", "spec_a"]] =
      ["spec_a", "specifications_text", "title", "url"] ∧
    ordered_fields [["url", "title", "specifications_text", "spec_a"]] ≠
      ["url", "title", "specifications_text", "spec_a"] :=
  ⟨by decide, by decide⟩

/-- C8 (amended): the exported column set is the union of the records'
keys minus the internal `all_specifications` key, emitted as one
duplicate-free lexicographically sorted sequence (no core-first layering),
except that an `error` column is moved to the very end when present. -/
theorem ordered_fields_spec (data : List (List String)) :
    (∀ k, k ∈ ordered_fields data ↔
      (k ∈ data.flatten ∧ k ≠ "all_specifications")) ∧
    (ordered_fields data).Nodup ∧
    ("error" ∉ data.flatten → List.Sorted strLeR (ordered_fields data)) ∧
    ("error" ∈ data.flatten →
      ordered_fields data =
        ((sortStrings ((dedupKeepFirst data.flatten).filter
          fun k => !(k == "all_specifications"))).filter
            fun k => !(k == "error")) ++ ["error"] ∧
      "error" ∉ ((sortStrings ((dedupKeepFirst data.flatten).filter
          fun k => !(k == "all_specifications"))).filter
            fun k => !(k == "error")) ∧
      List.Sorted strLeR ((sortStrings ((dedupKeepFirst data.flatten).filter
          fun k => !(k == "all_specifications"))).filter
            fun k => !(k == "error"))) := by
  have hmemS : ∀ k, k ∈ sortStrings ((dedupKeepFirst data.flatten).filter
      fun k => !(k == "all_specifications")) ↔
      (k ∈ data.flatten ∧ k ≠ "all_specifications") := by
    intro k
    rw [mem_sortStrings, List.mem_filter, mem_dedupKeepFirst]
    simp
  have hnodupS : (sortStrings ((dedupKeepFirst data.flatten).filter
      fun k => !(k == "all_specifications"))).Nodup :=
    sortStrings_nodup ((dedupKeepFirst_nodup data.flatten).filter _)
  have hsortS := sortStrings_sorted ((dedupKeepFirst data.flatten).filter
    fun k => !(k == "all_specifications"))
  refine ⟨?_, ?_, ?_, ?_⟩
  · intro k
    by_cases he : "error" ∈ data.flatten
    · have hc : (sortStrings ((dedupKeepFirst data.flatten).filter
          fun k => !(k == "all_specifications"))).contains "error" = true := by
        simp only [List.contains_iff_exists_mem_beq]
        exact ⟨"error", (hmemS "error").mpr ⟨he, by decide⟩, by decide⟩
      rw [ordered_fields]
      simp only [hc, if_true, List.mem_append, List.mem_filter, hmemS,
        List.mem_singleton]
      constructor
      · rintro (⟨⟨h1, h2⟩, _⟩ | rfl)
        · exact ⟨h1, h2⟩
        · exact ⟨he, by decide⟩
      · rintro ⟨h1, h2⟩
        by_cases hk : k = "error"
        · exact Or.inr hk
        · exact Or.inl ⟨⟨h1, h2⟩, by simp [hk]⟩
    · have hc : (sortStrings ((dedupKeepFirst data.flatten).filter
          fun k => !(k == "all_specifications"))).contains "error" = false := by
        rw [Bool.eq_false_iff]
        intro hcon
        rw [List.contains_iff_exists_mem_beq] at hcon
        obtain ⟨a, ha, hab⟩ := hcon
        rw [beq_iff_eq] at hab
        exact he (hab ▸ ((hmemS a).mp ha).1)
      rw [ordered_fields]
      simp only [hc, if_false, Bool.false_eq_true, hmemS]
  · by_cases he : "error" ∈ (sortStrings ((dedupKeepFirst data.flatten).filter
        fun k => !(k == "all_specifications")))
    · have hc : (sortStrings ((dedupKeepFirst data.flatten).filter
          fun k => !(k == "all_specifications"))).contains "error" = true := by
        simp only [List.contains_iff_exists_mem_beq]
        exact ⟨"error", he, by decide⟩
      rw [ordered_fields]
      simp only [hc, if_true]
      rw [List.nodup_append]
      refine ⟨hnodupS.filter _, List.nodup_singleton _, ?_⟩
      intro a ha hb
      rw [List.mem_filter] at ha
      rw [List.mem_singleton] at hb
      subst hb
      simp at ha
    · have hc : (sortStrings ((dedupKeepFirst data.flatten).filter
          fun k => !(k == "all_specifications"))).contains "error" = false := by
        rw [Bool.eq_false_iff]
        intro hcon
        rw [List.contains_iff_exists_mem_beq] at hcon
        obtain ⟨a, ha, hab⟩ := hcon
        rw [beq_iff_eq] at hab
        exact he (hab ▸ ha)
      rw [ordered_fields]
      simp only [hc, if_false, Bool.false_eq_true]
      exact hnodupS
  · intro he
    have hc : (sortStrings ((dedupKeepFirst data.flatten).filter
        fun k => !(k == "all_specifications"))).contains "error" = false := by
      rw [Bool.eq_false_iff]
      intro hcon
      rw [List.contains_iff_exists_mem_beq] at hcon
      obtain ⟨a, ha, hab⟩ := hcon
      rw [beq_iff_eq] at hab
      exact he (hab ▸ ((hmemS a).mp ha)).1
    rw [ordered_fields]
    simp only [hc, if_false, Bool.false_eq_true]
    exact hsortS
  · intro he
    have hc : (sortStrings ((dedupKeepFirst data.flatten).filter
        fun k => !(k == "all_specifications"))).contains "error" = true := by
      simp only [List.contains_iff_exists_mem_beq]
      exact ⟨"error", (hmemS "error").mpr ⟨he, by decide⟩, by decide⟩
    rw [ordered_fields]
    simp only [hc, if_true]
    refine ⟨by trivial, ?_, ?_⟩
    · intro hmem
      rw [List.mem_filter] at hmem
      simp at hmem
    · exact hsortS.sublist (List.filter_sublist _)

/-- C8 witness: with keys `url`, `error`, `title` the header sorts the
non-error keys and forces `error` last. -/
theorem ordered_fields_spec_witness :
    "url" ∈ ordered_fields [["url", "error", "title"]] ∧
    ordered_fields [["url", "error", "title"]] = ["title", "url", "error"] := by
  refine ⟨((ordered_fields_spec [["url", "error", "title"]]).1 "url").mpr
    (by decide), ?_⟩
  have h := (ordered_fields_spec [["url", "error", "title"]]).2.2.2 (by decide)
  rw [h.1]
  decide

/-- C10: `scrape_all_properties` processes each distinct URL exactly at its
first occurrence — the URLs of the returned records are the input links
deduplicated in first-seen order and are pairwise distinct, so a repeated
link is extracted only once and the output holds at most one record per
URL. -/
theorem scrape_all_properties_once (fetch : String → Except String Page)
    (links : List String) :
    (scrape_all_properties fetch links).map ExtractionResult.urlOf =
      dedupKeepFirst links ∧
    ((scrape_all_properties fetch links).map ExtractionResult.urlOf).Nodup := by
  refine ⟨scrapeFrom_urls fetch [] links, ?_⟩
  show (List.map ExtractionResult.urlOf (scrapeFrom fetch [] links)).Nodup
  rw [scrapeFrom_urls fetch [] links]
  exact dedupFrom_nodup [] links

end Scraper
